import Mathlib

/-!
Verification of the `heu` test harness (Rust crate `cargo_heu`, files
`src/lib.rs` and `src/main.rs`).

Shallow embedding conventions:
* Rust `String`/`&str` values are Lean `String`s; where a function iterates
  over the characters of a string (`split('-')`, digit parsing, padding) the
  embedding works on `String.toList`.
* Rust byte buffers (`Vec<u8>`) are modelled as `String`s: the claims under
  study never depend on byte-level encoding, and `String::from_utf8_lossy`
  is modelled as the identity on the already-textual model.
* A compiled `regex::Regex` is modelled extensionally by the function
  `RegexCap : String → Option String` that sends one line to the text of its
  first capture group (`None` both when the pattern does not match the line
  and when capture group 1 does not participate in the match) — exactly the
  data the source reads off a compiled regex via
  `re.captures(line).and_then(|c| c.get(1))`.
* Machine integers: the case indices are `u32` and scores are `u64`; both are
  modelled as `Nat`, with the `u32`/`u64` bound enforced exactly where the
  source enforces it (`str::parse::<u32>` / `str::parse::<u64>` fail on
  overflow, modelled by `parse_uint` with an explicit bound).
* Functions whose text is split into "lines" (`str::lines`) are usually given
  the line list directly; `linesOf` models the line splitting itself.
-/

namespace CargoHeu

/-- Value of a base-10 digit string, most significant digit first
(`acc * 10 + digit` fold, the standard positional reading used by
`str::parse`). -/
def digitsToNat (ds : List Char) : Nat :=
  ds.foldl (fun a c => a * 10 + (c.toNat - 48)) 0

/-- Decimal digit characters of a positive natural number, most significant
first; returns `[]` for `0` (helper for `natDecimal`). -/
def natDecimalAux (n : Nat) : List Char :=
  if h : n = 0 then []
  else natDecimalAux (n / 10) ++ [Nat.digitChar (n % 10)]
  termination_by n
  decreasing_by exact Nat.div_lt_self (Nat.pos_of_ne_zero h) (by omega)

/-- Decimal representation of a natural number as Rust's integer `Display`
prints it (`"0"` for zero, no sign, no padding). -/
def natDecimal (n : Nat) : List Char :=
  if n = 0 then ['0'] else natDecimalAux n

/-- Model of Rust `str::parse::<uN>()` for an unsigned integer type whose
exclusive upper bound is `bound`: an optional leading `'+'`, then a nonempty
run of ASCII digits, rejecting values `≥ bound` (overflow). -/
def parse_uint (bound : Nat) (cs : List Char) : Option Nat :=
  let ds := match cs with
    | '+' :: rest => rest
    | _ => cs
  if ds.isEmpty then none
  else if ds.all Char.isDigit then
    let n := digitsToNat ds
    if n < bound then some n else none
  else none

/-- Rust `str::parse::<u32>()` (used by `parse_cases`). -/
def parse_u32 (s : String) : Option Nat := parse_uint (2 ^ 32) s.toList

/-- Rust `str::parse::<u64>()` (used by `CaseResult::parse_score`). -/
def parse_u64 (s : String) : Option Nat := parse_uint (2 ^ 64) s.toList

/-- Rust `s.split('-')` on the character list of a token: splits at every
`'-'`, keeping empty pieces (`"a--b"` gives `["a","","b"]`, `""` gives
`[""]`). -/
def splitOnDash : List Char → List (List Char)
  | [] => [[]]
  | c :: cs =>
    if c = '-' then [] :: splitOnDash cs
    else
      match splitOnDash cs with
      | [] => [[c]]
      | p :: ps => (c :: p) :: ps

/-- Rust `start..=end` collected into a vector (`ret.extend(start..=end)` in
`parse_cases`): the inclusive ascending range, empty when `a > b`. -/
def rangeIncl (a b : Nat) : List Nat := List.range' a (b + 1 - a)

/-- One iteration of the `for s in args` loop body of `parse_cases`
(src/lib.rs:437-448): split the token on `'-'`; one part → single parsed
`u32`; two parts → inclusive range when both parse; anything else (more
dashes, or a parse failure) contributes nothing. -/
def parse_token (s : String) : List Nat :=
  match (splitOnDash s.toList).map String.mk with
  | [p] =>
    match parse_u32 p with
    | some n => [n]
    | none => []
  | [p, q] =>
    match parse_u32 p, parse_u32 q with
    | some a, some b => rangeIncl a b
    | _, _ => []
  | _ => []

/-- `parse_cases` (src/lib.rs:431-450): empty argument list gives the default
`(0..5).collect()`; otherwise each token contributes its parsed indices in
order, concatenated. -/
def parse_cases (args : List String) : List Nat :=
  if args.isEmpty then List.range 5
  else (args.map parse_token).flatten

/-- A compiled regex, modelled extensionally: the first-capture-group text it
produces on a given line, `none` when the pattern does not match the line or
group 1 does not participate. -/
abbrev RegexCap := String → Option String

/-- `CaseResult::parse_score` (src/lib.rs:147-156) on the list of lines of
the visualizer output: scan lines in order; at the first line where the
pattern matches with a participating group 1, return that capture parsed as
`u64` (`unwrap_or(0)` on parse failure); `0` when no line yields a capture. -/
def parse_score (visoutLines : List String) (score_regex : RegexCap) : Nat :=
  match visoutLines with
  | [] => 0
  | line :: rest =>
    match score_regex line with
    | some m => (parse_u64 m).getD 0
    | none => parse_score rest score_regex

/-- Loop body of `CaseResult::lookup_comments_from` (src/lib.rs:163-177):
fold over the stderr lines keeping the accumulated comment string; a line
whose group 1 captures appends `'/'` (only when the accumulator is nonempty)
followed by the captured text. -/
def lookup_loop (comment_regex : RegexCap) (cmts : String) :
    List String → String
  | [] => cmts
  | line :: rest =>
    match comment_regex line with
    | some r =>
      lookup_loop comment_regex ((if cmts = "" then cmts else cmts ++ "/") ++ r) rest
    | none => lookup_loop comment_regex cmts rest

/-- `CaseResult::lookup_comments_from` (src/lib.rs:163-177) on the list of
stderr lines. -/
def lookup_comments_from (stderrLines : List String) (comment_regex : RegexCap) :
    String :=
  lookup_loop comment_regex "" stderrLines

/-- `format_with_commas` (src/lib.rs:204-214): decimal digits of `n` with a
`','` inserted every three digits counted from the least-significant end.
The source reverses the digit characters, pushes a comma before every
character whose reversed index is a positive multiple of 3, and reverses
back; `commaRev` is that enumerated pass over the reversed digits. -/
def commaRev : Nat → List Char → List Char
  | _, [] => []
  | i, c :: cs => (if 0 < i ∧ i % 3 = 0 then [','] else []) ++ c :: commaRev (i + 1) cs

/-- `format_with_commas` (src/lib.rs:204-214). -/
def format_with_commas (n : Nat) : String :=
  String.mk (commaRev 0 (natDecimal n).reverse).reverse

/-- Modelled from the spec (§4.3): "joined with the separator `/` in line
order" — the plain `'/'`-join of a list of strings. Used to compare the
source's comment accumulation against the spec's wording. -/
def joinSlash : List String → String
  | [] => ""
  | [x] => x
  | x :: y :: rest => x ++ "/" ++ joinSlash (y :: rest)

/-- Modelled from the spec (§4.3, claim C4 wording): "the first line whose
first capture group parses as an unsigned integer determines the score; if no
line matches, score is 0". -/
def specParseScore (visoutLines : List String) (score_regex : RegexCap) : Nat :=
  ((visoutLines.filterMap (fun l => (score_regex l).bind parse_u64)).head?).getD 0

/-- Modelled from the spec (§4.3, claim C5 wording): every captured group-1
substring, joined with `/` in line order. -/
def specJoinComments (stderrLines : List String) (comment_regex : RegexCap) : String :=
  joinSlash (stderrLines.filterMap comment_regex)

/-- Rust `str::split_whitespace` (used on `config.test.cases` in `Heu::new`):
split on whitespace characters, dropping empty pieces. -/
def splitWhitespace (s : String) : List String :=
  ((List.splitOnP (fun c => c.isWhitespace) s.toList).filter (fun l => ¬ l.isEmpty)).map
    String.mk

/-- Rust `str::lines`: split on `'\n'`, drop one trailing empty piece (so a
final newline does not yield an empty last line), and strip one trailing
`'\r'` from each line. -/
def linesOf (s : String) : List String :=
  let parts := s.splitOn "\n"
  let parts := if parts.getLast? = some "" then parts.dropLast else parts
  parts.map (fun l => if l.endsWith "\r" then l.dropRight 1 else l)

/-- `BuildConfig` (src/lib.rs:16-20). -/
structure BuildConfig where
  enable : Bool
  command : String

/-- `TestConfig` (src/lib.rs:22-35); `threads` is a `usize`. -/
structure TestConfig where
  bin : String
  cases : String
  threads : Nat
  no_evaluate : Bool
  use_tester : Bool
  in_dir : String
  out_dir : String
  vis : String
  tester : String
  score_regex : String
  comment_regex : String

/-- `Config` (src/lib.rs:10-14). -/
structure Config where
  build : BuildConfig
  test : TestConfig

/-- `Heu` (src/lib.rs:112-117): the constructed harness, holding the resolved
case list and the two compiled patterns. -/
structure Heu where
  config : Config
  cases : List Nat
  score_regex : RegexCap
  comment_regex : RegexCap

/-- `Heu::new` (src/lib.rs:217-234), with regex compilation modelled by the
oracle `compile : String → Option RegexCap` (`Regex::new` succeeding with the
compiled pattern's capture behavior, or failing). A failed compilation is the
source's `panic!`, modelled as `Except.error` carrying the panic message
prefix (the formatted message `"Invalid test.score_regex '{p}': {e}"` is
modelled without the regex library's error text `e`). The case list is
resolved from the whitespace-split selector before the patterns are
compiled, and the score pattern is compiled before the comment pattern. -/
def Heu.new (compile : String → Option RegexCap) (config : Config) :
    Except String Heu :=
  let cases := parse_cases (splitWhitespace config.test.cases)
  match compile config.test.score_regex with
  | none => .error ("Invalid test.score_regex " ++ config.test.score_regex)
  | some score_regex =>
    match compile config.test.comment_regex with
    | none => .error ("Invalid test.comment_regex " ++ config.test.comment_regex)
    | some comment_regex => .ok ⟨config, cases, score_regex, comment_regex⟩

/-- Left-pad a digit list with `'0'` to a given minimum width (Rust's
`{:04}` format specifier with `width = 4`; numbers with more digits are
printed in full). -/
def zeroPad (width : Nat) (ds : List Char) : List Char :=
  List.replicate (width - ds.length) '0' ++ ds

/-- `Heu::input_file` (src/lib.rs:236-238):
`format!("{}/{:04}.txt", in_dir, case)`. -/
def Heu.input_file (h : Heu) (case : Nat) : String :=
  h.config.test.in_dir ++ "/" ++ String.mk (zeroPad 4 (natDecimal case)) ++ ".txt"

/-- `Heu::output_file` (src/lib.rs:240-242):
`format!("{}/{:04}.txt", out_dir, case)`. -/
def Heu.output_file (h : Heu) (case : Nat) : String :=
  h.config.test.out_dir ++ "/" ++ String.mk (zeroPad 4 (natDecimal case)) ++ ".txt"

/-- `CaseResult` (src/lib.rs:120-129). `visout` and `stderr` are carried as
line lists (the source stores the raw text and splits into lines at use
sites); the `f64` field `elapsed` is omitted (wall-clock time, exercised by
no claim). -/
structure CaseResult where
  case : Nat
  inf : String
  outf : String
  visout : List String
  stderr : List String
  score : Nat
  comment_regex : RegexCap

/-- `CaseResult::new` (src/lib.rs:132-144): derives `score` from the
visualizer output via `parse_score`. -/
def CaseResult.new (case : Nat) (inf outf : String) (visout stderrLines : List String)
    (score_regex comment_regex : RegexCap) : CaseResult :=
  { case, inf, outf, visout, stderr := stderrLines,
    score := parse_score visout score_regex, comment_regex }

/-! ### The aggregator of `Heu::execute_multiprocess` (src/lib.rs:375-427)

Workers execute cases in parallel and send `(position, result)` pairs over an
mpsc channel; a single receiver thread owns the reorder buffer. The receiver
is embedded as a fold over the list of messages *in channel-arrival order*;
quantifying over that list captures every completion order any worker count
can produce. `emitted` records the buffer positions in emission order — it is
a specification-only trace of the `r.print()` calls, kept alongside
`printed`. -/

/-- One line printed by the receiver thread: a per-case result line
(`r.print()`) or the final `TOTAL=` line. -/
inductive OutEvent where
  | caseLine (r : CaseResult)
  | totalLine (total : String)

/-- State of the receiver loop in `execute_multiprocess` (src/lib.rs:391-394):
the slot buffer `buf`, the next-to-emit cursor `next`, the running `total`,
and the last emitted result `last`; `printed`/`emitted` trace the emissions. -/
structure AggState where
  buf : List (Option CaseResult)
  next : Nat
  total : Nat
  last : Option CaseResult
  printed : List OutEvent
  emitted : List Nat

/-- The inner `while next < n` flush loop (src/lib.rs:398-407): while the slot
at the cursor is filled, take it (slot becomes empty), print it, add its score
to the total, remember it as last, and advance the cursor. -/
def flush (n : Nat) (s : AggState) : AggState :=
  if _h : s.next < n then
    match s.buf.getD s.next none with
    | some r =>
      flush n
        { buf := s.buf.set s.next none, next := s.next + 1,
          total := s.total + r.score, last := some r,
          printed := s.printed ++ [OutEvent.caseLine r],
          emitted := s.emitted ++ [s.next] }
    | none => s
  else s
  termination_by n - s.next
  decreasing_by omega

/-- The `for (i, result) in rx` receiver loop (src/lib.rs:396-408): store each
arriving ok-result into its slot and flush; the first arriving error makes
`result?` return it immediately (remaining messages are never read). -/
def recvLoop (n : Nat) :
    List (Nat × Except String CaseResult) → AggState → AggState × Option String
  | [], s => (s, none)
  | (_, Except.error e) :: _, s => (s, some e)
  | (i, Except.ok r) :: rest, s =>
    recvLoop n rest (flush n { s with buf := s.buf.set i (some r) })

/-- Initial receiver state (src/lib.rs:391-394): `n` pending slots, cursor and
total at zero, no last result. -/
def initAggState (n : Nat) : AggState :=
  ⟨List.replicate n none, 0, 0, none, [], []⟩

/-- Observable outcome of `execute_multiprocess`: everything printed, the
output file handed to the clipboard (if any), the returned value, and the
emission-order trace. -/
structure MpOutcome where
  printed : List OutEvent
  clipped : Option String
  result : Except String Unit
  emitted : List Nat

/-- `Heu::execute_multiprocess`'s receiver thread (src/lib.rs:389-415) run to
completion on a batch of `n` resolved cases whose messages arrive in the
order given by `msgs`: on clean channel exhaustion the last emitted result's
output file is copied to the clipboard and the comma-formatted total is
printed; an error from any worker is returned as the thread's (and hence the
whole call's) result, with no clipboard copy and no total line. -/
def execute_multiprocess_agg (n : Nat) (msgs : List (Nat × Except String CaseResult)) :
    MpOutcome :=
  match recvLoop n msgs (initAggState n) with
  | (s, some e) => ⟨s.printed, none, .error e, s.emitted⟩
  | (s, none) =>
    ⟨s.printed ++ [.totalLine (format_with_commas s.total)],
     s.last.map (fun r => r.outf), .ok (), s.emitted⟩

/-- The messages produced by the worker side of `execute_multiprocess`
(src/lib.rs:379-387): position `i` within the resolved sequence paired with
the outcome of `execute_case` on the case at that position (`run` abstracts
one case execution against the environment). The channel delivers some
permutation of this list. -/
def workerMsgs (run : Nat → Except String CaseResult) (cases : List Nat) :
    List (Nat × Except String CaseResult) :=
  cases.enum.map (fun p => (p.1, run p.2))

/-- Receiver-loop invariant, relative to the set `R` of buffer positions whose
message has already arrived: the buffer has one slot per resolved case; the
emission trace is exactly `0, 1, …, next-1` (the cursor never skips or
rewinds); every already-emitted position had arrived; and a slot at or past
the cursor is filled exactly when its position has arrived (slots below the
cursor have been taken). -/
def PreInv (n : Nat) (R : Nat → Prop) (s : AggState) : Prop :=
  s.buf.length = n ∧
  s.emitted = List.range s.next ∧
  s.next ≤ n ∧
  (∀ j, j < s.next → R j) ∧
  (∀ j, j < n → ((s.buf.getD j none).isSome = true ↔ R j ∧ s.next ≤ j))

/-- `PreInv` together with the flush loop's stopping condition: the cursor
sits at the end of the buffer or at a position that has not arrived yet. -/
def Inv (n : Nat) (R : Nat → Prop) (s : AggState) : Prop :=
  PreInv n R s ∧ (s.next = n ∨ ¬ R s.next)

/-! ### Process runner (src/lib.rs:268-372)

Subprocess and filesystem behavior is environmental; a `World` oracle gives
the outcome of each effectful call, and the embedding logs the effects it
performs. Spawn failures and I/O failures are the `Except.error` results of
the oracle. -/

/-- Captured output of one finished subprocess (`std::process::Output`):
exit-status success flag, stdout and stderr (bytes modelled as text). -/
structure SubprocOut where
  success : Bool
  stdout : String
  stderr : String

/-- Side effects performed by the harness. -/
inductive Event where
  | spawn (command : String)
  | wrote (path : String) (data : String)
  | createdDir (path : String)

/-- Environment oracle for one run: results of reading files, creating
directories, writing files, and spawning the solution (piped mode), the
tester (stdin redirected from the input file), the visualizer, the solution
in run-only mode (only its exit status is observed), and the build command. -/
structure World where
  readFile : String → Except String String
  createDirAll : String → Except String Unit
  writeFile : String → String → Except String Unit
  runSolution : String → String → Except String SubprocOut
  runTester : String → Except String SubprocOut
  runVis : String → String → Except String SubprocOut
  runSolutionStatus : String → Except String Bool

/-- The same world with every solution/tester subprocess reporting exit
status `b` instead — captured stdout/stderr unchanged. Used to state that
evaluating mode never looks at the exit status. -/
def overrideStatus (w : World) (b : Bool) : World :=
  { w with
    runSolution := fun inf i => (w.runSolution inf i).map (fun o => { o with success := b }),
    runTester := fun inf => (w.runTester inf).map (fun o => { o with success := b }) }

/-- `Heu::run_command` (src/lib.rs:315-344): spawn the tester (with the
solution command appended) when `use_tester` is set, else spawn the solution
with the input piped in; return the captured output — the exit status is
captured but never inspected. Returns the spawn event alongside. -/
def run_command (h : Heu) (w : World) (inf : String) (input_data : String) :
    Except String (SubprocOut × List Event) :=
  if h.config.test.use_tester then
    match w.runTester inf with
    | .error e => .error e
    | .ok out => .ok (out, [Event.spawn h.config.test.tester])
  else
    match w.runSolution inf input_data with
    | .error e => .error e
    | .ok out => .ok (out, [Event.spawn h.config.test.bin])

/-- `Heu::execute_case` (src/lib.rs:284-312): ensure the output directory
exists, read the input file, run the solution (or tester), write the captured
stdout to the output file, run the visualizer on the (input, output) pair,
and build the `CaseResult` from the visualizer stdout and solution stderr.
The solution's exit status is never examined. (`createDirAll` is keyed by the
output path; the source passes its parent directory.) -/
def execute_case (h : Heu) (w : World) (case : Nat) :
    Except String (CaseResult × List Event) :=
  let inf := h.input_file case
  let outf := h.output_file case
  match w.createDirAll outf with
  | .error e => .error e
  | .ok _ =>
    match w.readFile inf with
    | .error e => .error e
    | .ok input_data =>
      match run_command h w inf input_data with
      | .error e => .error e
      | .ok (out, spawnEvs) =>
        match w.writeFile outf out.stdout with
        | .error e => .error e
        | .ok _ =>
          match w.runVis inf outf with
          | .error e => .error e
          | .ok visOut =>
            .ok (CaseResult.new case inf outf (linesOf visOut.stdout)
                   (linesOf out.stderr) h.score_regex h.comment_regex,
                 [Event.createdDir outf] ++ spawnEvs
                   ++ [Event.wrote outf out.stdout, Event.spawn h.config.test.vis])

/-- The `for &case in &self.cases` loop of `Heu::execute_run_only`
(src/lib.rs:268-281): run each case sequentially with stdin redirected from
the input file, observing only the exit status; a non-success status aborts
with `"case {c} failed"`. -/
def run_only_loop (h : Heu) (w : World) :
    List Nat → List Event → Except String (List Event)
  | [], evs => .ok evs
  | case :: rest, evs =>
    match w.runSolutionStatus (h.input_file case) with
    | .error e => .error e
    | .ok true => run_only_loop h w rest (evs ++ [Event.spawn h.config.test.bin])
    | .ok false => .error ("case " ++ String.mk (natDecimal case) ++ " failed")

/-- `Heu::execute_run_only` (src/lib.rs:268-281). -/
def execute_run_only (h : Heu) (w : World) : Except String (List Event) :=
  run_only_loop h w h.cases []

/-! ### `main` (src/main.rs:63-93) -/

/-- How the process terminates: a normal exit with a code and the lines it
printed to standard error, or a Rust panic (the runtime prints the panic
message and the process exits with code 101 — it does not reach the
`Error:` printing path). -/
inductive ProcOutcome where
  | exited (code : Nat) (errLines : List String)
  | panicked (msg : String)

/-- Process exit code of an outcome (a panicking Rust main thread terminates
the process with code 101). -/
def exitCode : ProcOutcome → Nat
  | .exited c _ => c
  | .panicked _ => 101

/-- The tail of `main` (src/main.rs:87-92): construct the harness (a `panic!`
inside `Heu::new` escapes `main` uncaught), then run `heu.execute()`; an
`Err(e)` prints the single line `Error: {e}` to standard error and exits with
code 1, success exits with code 0. `execOutcome` abstracts what
`heu.execute()` does for the constructed harness: its returned value and the
side effects it performs — the run's event trace is empty whenever
construction fails. -/
def mainRun (compile : String → Option RegexCap) (config : Config)
    (execOutcome : Heu → Except String Unit × List Event) :
    ProcOutcome × List Event :=
  match Heu.new compile config with
  | .error m => (.panicked m, [])
  | .ok h =>
    match (execOutcome h).1 with
    | .error e => (.exited 1 ["Error: " ++ e], (execOutcome h).2)
    | .ok _ => (.exited 0 [], (execOutcome h).2)

/-! ### Concrete sample data (used to instantiate the theorems below) -/

/-- A compiled pattern that never matches any line. -/
def noCap : RegexCap := fun _ => none

/-- The `test_config()` fixture of the source's test module
(src/lib.rs:456-476). -/
def sampleConfig : Config :=
  { build := { enable := false, command := "" },
    test :=
      { bin := "./target/release/a", cases := "0-9", threads := 1,
        no_evaluate := false, use_tester := false,
        in_dir := "./tools/in", out_dir := "./tools/out",
        vis := "", tester := "",
        score_regex := "Score = (\\d+)", comment_regex := "^# (.*)$" } }

/-- `sampleConfig` with an invalid score pattern, as in the source's
`test_heu_new_invalid_score_regex_panics` test (src/lib.rs:562-567). -/
def badConfig : Config :=
  { sampleConfig with test := { sampleConfig.test with score_regex := "(" } }

/-- A compilation oracle on which every pattern compiles. -/
def goodCompile : String → Option RegexCap := fun _ => some noCap

/-- A compilation oracle on which exactly the pattern `"("` fails to compile
(as `Regex::new` does). -/
def badCompile : String → Option RegexCap :=
  fun s => if s = "(" then none else some noCap

/-- A sample constructed harness. -/
def sampleHeu : Heu :=
  { config := sampleConfig, cases := [0, 1], score_regex := noCap,
    comment_regex := noCap }

/-- A sample case result for case `c`. -/
def sampleRes (c : Nat) : CaseResult :=
  { case := c, inf := "in", outf := "out" ++ String.mk (natDecimal c),
    visout := [], stderr := [], score := c + 7, comment_regex := noCap }

/-- A sample worker function on which every case succeeds. -/
def sampleRun : Nat → Except String CaseResult := fun c => .ok (sampleRes c)

/-- A sample world: reads succeed, the solution exits *unsuccessfully* (status
`false`) with stdout `"answer"` and stderr `"# note"`, the visualizer prints
`"Score = 42"`, and the run-only status probe reports failure. -/
def sampleWorld : World :=
  { readFile := fun _ => .ok "input",
    createDirAll := fun _ => .ok (),
    writeFile := fun _ _ => .ok (),
    runSolution := fun _ _ => .ok ⟨false, "answer", "# note"⟩,
    runTester := fun _ => .ok ⟨false, "t-answer", "t-err"⟩,
    runVis := fun _ _ => .ok ⟨true, "Score = 42", ""⟩,
    runSolutionStatus := fun _ => .ok false }

/-- The capture behavior of the comment pattern `"^#(.*)$"` restricted to the
two lines `"#"` and `"#x"`: group 1 captures `""` on the first and `"x"` on
the second. -/
def capHash : RegexCap :=
  fun l => if l = "#" then some "" else if l = "#x" then some "x" else none

/-! ## Helper lemmas -/

theorem splitOnDash_no_dash {l : List Char} (h : '-' ∉ l) : splitOnDash l = [l] := by
  induction l with
  | nil => rfl
  | cons c cs ih =>
    simp only [List.mem_cons, not_or] at h
    rw [splitOnDash, if_neg (fun hc => h.1 hc.symm), ih h.2]

theorem splitOnDash_append {a : List Char} (b : List Char) (h : '-' ∉ a) :
    splitOnDash (a ++ '-' :: b) = a :: splitOnDash b := by
  induction a with
  | nil => rfl
  | cons c cs ih =>
    simp only [List.mem_cons, not_or] at h
    rw [List.cons_append, splitOnDash, if_neg (fun hc => h.1 hc.symm), ih h.2]

theorem splitOnDash_ne_nil (l : List Char) : splitOnDash l ≠ [] := by
  cases l with
  | nil => simp [splitOnDash]
  | cons c cs =>
    rw [splitOnDash]
    split
    · simp
    · split <;> simp

theorem splitOnDash_length (l : List Char) :
    (splitOnDash l).length = l.count '-' + 1 := by
  induction l with
  | nil => rfl
  | cons c cs ih =>
    rw [splitOnDash]
    by_cases hc : c = '-'
    · subst hc
      simp [List.count_cons, ih]
    · rw [if_neg hc]
      rcases hs : splitOnDash cs with _ | ⟨p, ps⟩
      · exact absurd hs (splitOnDash_ne_nil cs)
      · have := ih
        rw [hs] at this
        simpa [List.count_cons, Ne.symm hc] using this

theorem mem_rangeIncl {a b x : Nat} : x ∈ rangeIncl a b ↔ a ≤ x ∧ x ≤ b := by
  rw [rangeIncl, List.mem_range'_1]
  omega

theorem pairwise_rangeIncl (a b : Nat) :
    List.Pairwise (· < ·) (rangeIncl a b) :=
  List.pairwise_lt_range' a (b + 1 - a)

theorem rangeIncl_eq_nil {a b : Nat} (h : b < a) : rangeIncl a b = [] := by
  rw [rangeIncl, show b + 1 - a = 0 by omega]
  rfl

/-- C3: `parse_cases` resolves a whitespace-split selector token list exactly
as specified: empty input gives `[0,1,2,3,4]`; otherwise the outputs of the
tokens are concatenated in token order without deduplication, where a token
without `'-'` contributes its parsed `u32` (nothing when it fails to parse),
a token `a-b` with exactly one `'-'` contributes the inclusive ascending
range `a..=b` (empty when `a > b`), and a token with two or more `'-'`
contributes nothing; membership and sortedness of `rangeIncl` pin down
"inclusive ascending range". -/
theorem C3_parse_cases_spec :
    parse_cases [] = [0, 1, 2, 3, 4] ∧
    (∀ args : List String, args ≠ [] →
      parse_cases args = (args.map parse_token).flatten) ∧
    (∀ s : String, '-' ∉ s.toList →
      parse_token s = (parse_u32 s).elim [] (fun n => [n])) ∧
    (∀ a b : List Char, '-' ∉ a → '-' ∉ b →
      parse_token (String.mk (a ++ '-' :: b)) =
        ((parse_u32 (String.mk a)).bind fun x =>
          (parse_u32 (String.mk b)).map fun y => rangeIncl x y).getD []) ∧
    (∀ s : String, 2 ≤ s.toList.count '-' → parse_token s = []) ∧
    (∀ a b x : Nat, x ∈ rangeIncl a b ↔ a ≤ x ∧ x ≤ b) ∧
    (∀ a b : Nat, List.Pairwise (· < ·) (rangeIncl a b)) ∧
    (∀ a b : Nat, b < a → rangeIncl a b = []) := by
  refine ⟨rfl, ?_, ?_, ?_, ?_, ?_, ?_, ?_⟩
  · intro args h
    rw [parse_cases, if_neg (by simpa using h)]
  · intro s h
    rw [parse_token, splitOnDash_no_dash h]
    rcases hp : parse_u32 s with _ | n <;> simp [hp, String.mk, Option.elim]
  · intro a b ha hb
    rw [parse_token, show (String.mk (a ++ '-' :: b)).toList = a ++ '-' :: b from rfl,
      splitOnDash_append b ha, splitOnDash_no_dash hb]
    rcases hpa : parse_u32 (String.mk a) with _ | x <;>
      rcases hpb : parse_u32 (String.mk b) with _ | y <;>
        simp [hpa, hpb]
  · intro s h
    rw [parse_token]
    rcases hp : (splitOnDash s.toList).map String.mk with _ | ⟨p, _ | ⟨q, _ | ⟨r, rest⟩⟩⟩
    · rfl
    · have hlen := congrArg List.length hp
      rw [List.length_map, splitOnDash_length] at hlen
      simp only [List.length_cons, List.length_nil] at hlen
      omega
    · have hlen := congrArg List.length hp
      rw [List.length_map, splitOnDash_length] at hlen
      simp only [List.length_cons, List.length_nil] at hlen
      omega
    · rfl
  · exact fun a b x => mem_rangeIncl
  · exact pairwise_rangeIncl
  · exact fun a b h => rangeIncl_eq_nil h

/-- Witness for C3 at concrete selector tokens. -/
theorem C3_parse_cases_spec_witness :
    parse_cases ["0", "1", "3-5"] =
      [parse_token "0", parse_token "1", parse_token "3-5"].flatten ∧
    parse_token "3" = (parse_u32 "3").elim [] (fun n => [n]) ∧
    parse_token (String.mk (['5'] ++ '-' :: ['3'])) =
      ((parse_u32 (String.mk ['5'])).bind fun x =>
        (parse_u32 (String.mk ['3'])).map fun y => rangeIncl x y).getD [] ∧
    parse_token "1-2-3" = [] ∧
    rangeIncl 5 3 = [] := by
  refine ⟨?_, ?_, ?_, ?_, ?_⟩
  · simpa using C3_parse_cases_spec.2.1 ["0", "1", "3-5"] (by simp)
  · exact C3_parse_cases_spec.2.2.1 "3" (by decide)
  · exact C3_parse_cases_spec.2.2.2.1 ['5'] ['3'] (by decide) (by decide)
  · exact C3_parse_cases_spec.2.2.2.2.1 "1-2-3" (by decide)
  · exact C3_parse_cases_spec.2.2.2.2.2.2.2 5 3 (by decide)

/-- C4 counterexample: with the pattern `"(.*)"` (group 1 captures the whole
line on every line, modelled by `fun l => some l`) on the two-line text
`"abc\n42"`, the source returns `0` — it stops at the *first matching* line
`"abc"` and takes `unwrap_or(0)` when the capture fails to parse — while the
claim's reading ("the first line whose first capture group parses as an
unsigned integer determines the score") selects `"42"` and yields `42`. -/
theorem C4_counterexample :
    parse_score ["abc", "42"] (fun l => some l) = 0 ∧
    specParseScore ["abc", "42"] (fun l => some l) = 42 := by
  exact ⟨rfl, rfl⟩

/-- C4 (amended): `parse_score` scans line by line; the *first line on which
the pattern matches with a participating first capture group* determines the
score, namely that capture parsed as a `u64`, or `0` when it does not parse;
`0` when no line produces a capture. Later captures are ignored (only the
head of the capture list matters). -/
theorem C4_parse_score_first_capture (lines : List String) (cap : RegexCap) :
    parse_score lines cap = (((lines.filterMap cap).head?).bind parse_u64).getD 0 := by
  induction lines with
  | nil => rfl
  | cons l ls ih =>
    cases hc : cap l with
    | none => simp only [parse_score, hc, List.filterMap_cons]; exact ih
    | some m => simp [parse_score, hc, List.filterMap_cons]

theorem append_slash_ne_empty (s t : String) : s ++ "/" ++ t ≠ "" := by
  intro h
  have hd := congrArg String.data h
  simp [String.data_append] at hd

theorem lookup_loop_nonempty (cap : RegexCap) (ls : List String) :
    ∀ cmts : String, cmts ≠ "" →
      lookup_loop cap cmts ls =
        List.foldl (fun a r => a ++ "/" ++ r) cmts (ls.filterMap cap) := by
  induction ls with
  | nil => intro cmts _; rfl
  | cons l ls ih =>
    intro cmts h
    cases hc : cap l with
    | none => simp only [lookup_loop, hc, List.filterMap_cons]; exact ih cmts h
    | some r =>
      simp only [lookup_loop, hc, List.filterMap_cons, if_neg h, List.foldl_cons]
      exact ih _ (append_slash_ne_empty cmts r)

theorem joinSlash_cons_append (x y : String) (rest : List String) :
    joinSlash ((x ++ "/" ++ y) :: rest) = x ++ "/" ++ joinSlash (y :: rest) := by
  cases rest with
  | nil => rfl
  | cons z rest => simp [joinSlash, String.append_assoc]

theorem foldl_joinSlash (rest : List String) :
    ∀ x, List.foldl (fun a r => a ++ "/" ++ r) x rest = joinSlash (x :: rest) := by
  induction rest with
  | nil => intro x; rfl
  | cons y rest ih =>
    intro x
    rw [List.foldl_cons, ih, joinSlash_cons_append]
    rfl

/-- C5 counterexample: with the comment pattern `"^#(.*)$"` on the stderr
lines `"#"` and `"#x"` (group 1 captures `""` then `"x"`), the source yields
`"x"` — a contribution made while the accumulator is still empty is not
preceded by `'/'` — while the claim's reading ("contributions are joined
with `'/'` in line order") yields `"/x"`. -/
theorem C5_counterexample :
    lookup_comments_from ["#", "#x"] capHash = "x" ∧
    specJoinComments ["#", "#x"] capHash = "/x" := by
  exact ⟨rfl, rfl⟩

/-- C5 (amended): comment extraction applies the pattern line by line; every
line whose first capture group matches contributes the captured substring,
unmatched lines contribute nothing, and the contributions are joined with
`'/'` in line order *after dropping leading empty contributions* (a
contribution arriving while the accumulated string is still empty is not
preceded by a separator); no match anywhere yields the empty string. -/
theorem C5_comments_join (lines : List String) (cap : RegexCap) :
    lookup_comments_from lines cap =
      joinSlash ((lines.filterMap cap).dropWhile (fun s => s == "")) := by
  rw [lookup_comments_from]
  induction lines with
  | nil => rfl
  | cons l ls ih =>
    cases hc : cap l with
    | none => simp only [lookup_loop, hc, List.filterMap_cons]; exact ih
    | some r =>
      simp only [lookup_loop, hc, List.filterMap_cons, if_pos rfl, ite_true]
      by_cases hr : r = ""
      · subst hr
        simpa [List.dropWhile_cons] using ih
      · have hrr : ("" : String) ++ r = r := rfl
        rw [hrr, lookup_loop_nonempty cap ls r hr, foldl_joinSlash,
          List.dropWhile_cons]
        simp [hr]

theorem foldl_digits_zeros (k : Nat) :
    List.foldl (fun a c => a * 10 + (c.toNat - 48)) 0 (List.replicate k '0') = 0 := by
  induction k with
  | zero => rfl
  | succ k ih => rw [List.replicate_succ, List.foldl_cons]; simpa using ih

theorem digitsToNat_zeroPad (w : Nat) (ds : List Char) :
    digitsToNat (zeroPad w ds) = digitsToNat ds := by
  rw [zeroPad, digitsToNat, List.foldl_append, foldl_digits_zeros]
  rfl

theorem digitChar_sub (d : Nat) (h : d < 10) : (Nat.digitChar d).toNat - 48 = d := by
  interval_cases d <;> rfl

theorem foldl_natDecimalAux (n : Nat) :
    ∀ a, List.foldl (fun a c => a * 10 + (c.toNat - 48)) a (natDecimalAux n)
      = a * 10 ^ (natDecimalAux n).length + n := by
  induction n using Nat.strong_induction_on with
  | _ n ih =>
    intro a
    rw [natDecimalAux]
    split
    · next h => subst h; simp
    · next h =>
      rw [List.foldl_append, List.foldl_cons, List.foldl_nil,
        ih (n / 10) (Nat.div_lt_self (Nat.pos_of_ne_zero h) (by omega)) a,
        digitChar_sub _ (Nat.mod_lt _ (by omega)), List.length_append,
        List.length_cons, List.length_nil, pow_succ, ← mul_assoc]
      omega

theorem digitsToNat_natDecimal (n : Nat) : digitsToNat (natDecimal n) = n := by
  rw [natDecimal]
  by_cases h : n = 0
  · subst h; rfl
  · rw [if_neg h, digitsToNat, foldl_natDecimalAux n 0]
    simp

theorem natDecimalAux_length_le (k : Nat) :
    ∀ n, n < 10 ^ k → (natDecimalAux n).length ≤ k := by
  induction k with
  | zero =>
    intro n hn
    have : n = 0 := by simpa using hn
    subst this
    rw [natDecimalAux]
    simp
  | succ k ih =>
    intro n hn
    rw [natDecimalAux]
    split
    · simp
    · next h =>
      rw [List.length_append, List.length_cons, List.length_nil]
      have hdiv : n / 10 < 10 ^ k := by
        rw [Nat.div_lt_iff_lt_mul (by omega)]
        calc n < 10 ^ (k + 1) := hn
        _ = 10 ^ k * 10 := by rw [pow_succ]
      have := ih (n / 10) hdiv
      omega

theorem natDecimal_length_le {n k : Nat} (hk : 1 ≤ k) (h : n < 10 ^ k) :
    (natDecimal n).length ≤ k := by
  rw [natDecimal]
  by_cases h0 : n = 0
  · simpa [h0] using hk
  · rw [if_neg h0]
    exact natDecimalAux_length_le k n h

theorem zeroPad_length (w : Nat) (ds : List Char) :
    (zeroPad w ds).length = max w ds.length := by
  simp [zeroPad]
  omega

/-- C8: for every constructed harness and case index, the input path is
`in_dir/NNNN.txt` and the output path is `out_dir/NNNN.txt`, where `NNNN` is
the decimal representation of the case index left-padded with zeros to width
4 (`{:04}`): the padded digit string still reads back as the case index, its
length is `max 4` the unpadded length — exactly 4 for any index below
10000. -/
theorem C8_case_file_paths (h : Heu) (c : Nat) :
    h.input_file c =
      h.config.test.in_dir ++ "/" ++ String.mk (zeroPad 4 (natDecimal c)) ++ ".txt" ∧
    h.output_file c =
      h.config.test.out_dir ++ "/" ++ String.mk (zeroPad 4 (natDecimal c)) ++ ".txt" ∧
    digitsToNat (zeroPad 4 (natDecimal c)) = c ∧
    (zeroPad 4 (natDecimal c)).length = max 4 (natDecimal c).length ∧
    (c < 10000 → (zeroPad 4 (natDecimal c)).length = 4) := by
  refine ⟨rfl, rfl, ?_, zeroPad_length 4 (natDecimal c), ?_⟩
  · rw [digitsToNat_zeroPad, digitsToNat_natDecimal]
  · intro hc
    rw [zeroPad_length]
    have h4 : (10 : Nat) ^ 4 = 10000 := by norm_num
    have := natDecimal_length_le (n := c) (k := 4) (by omega) (by omega)
    omega

/-- Witness for C8 at case 3 of the sample harness (matching the source's
`test_input_file` and `test_output_file`). -/
theorem C8_case_file_paths_witness :
    sampleHeu.input_file 3 = "./tools/in/0003.txt" ∧
    sampleHeu.output_file 3 = "./tools/out/0003.txt" ∧
    (zeroPad 4 (natDecimal 3)).length = 4 := by
  obtain ⟨h1, h2, -, -, h5⟩ := C8_case_file_paths sampleHeu 3
  have hnd : natDecimal 3 = ['3'] := by
    rw [natDecimal, if_neg (by omega), natDecimalAux, dif_neg (by omega),
      natDecimalAux, dif_pos (by norm_num)]
    rfl
  refine ⟨?_, ?_, h5 (by omega)⟩
  · rw [h1, hnd]; decide
  · rw [h2, hnd]; decide

/-! ## The aggregator: ordered emission and error propagation -/

theorem getD_set_self {α : Type} (l : List α) (i : Nat) (a d : α) (h : i < l.length) :
    (l.set i a).getD i d = a := by
  rw [List.getD_eq_getElem?_getD, List.getElem?_set, if_pos rfl, if_pos h]
  rfl

theorem getD_set_ne {α : Type} (l : List α) {i j : Nat} (a d : α) (h : i ≠ j) :
    (l.set i a).getD j d = l.getD j d := by
  rw [List.getD_eq_getElem?_getD, List.getElem?_set, if_neg h,
    ← List.getD_eq_getElem?_getD]

theorem Inv_congr {n : Nat} {R R' : Nat → Prop} {s : AggState}
    (h : ∀ j, R j ↔ R' j) : Inv n R s → Inv n R' s := by
  rintro ⟨⟨h1, h2, h3, h4, h5⟩, h6⟩
  refine ⟨⟨h1, h2, h3, fun j hj => (h j).mp (h4 j hj), fun j hj => ?_⟩, ?_⟩
  · rw [h5 j hj, h j]
  · rcases h6 with h6 | h6
    · exact Or.inl h6
    · exact Or.inr (fun hR => h6 ((h s.next).mpr hR))

theorem flush_preInv (n : Nat) (R : Nat → Prop) :
    ∀ s : AggState, PreInv n R s → Inv n R (flush n s) := by
  suffices H : ∀ m s, n - AggState.next s = m → PreInv n R s → Inv n R (flush n s) by
    exact fun s hs => H _ s rfl hs
  intro m
  induction m using Nat.strong_induction_on with
  | _ m ih =>
    intro s hm hpre
    obtain ⟨h1, h2, h3, h4, h5⟩ := hpre
    rw [flush]
    by_cases hlt : s.next < n
    · rw [dif_pos hlt]
      cases hslot : s.buf.getD s.next none with
      | none =>
        refine ⟨⟨h1, h2, h3, h4, h5⟩, Or.inr fun hR => ?_⟩
        have h5n := h5 s.next hlt
        rw [hslot] at h5n
        simp only [Option.isSome_none, Bool.false_eq_true, false_iff] at h5n
        exact h5n ⟨hR, le_refl _⟩
      | some r =>
        have hRnext : R s.next := by
          have h5n := h5 s.next hlt
          rw [hslot] at h5n
          exact ((h5n.mp rfl)).1
        apply ih (n - (s.next + 1)) (by omega) _ rfl
        refine ⟨?_, ?_, ?_, ?_, ?_⟩
        · simpa using h1
        · simpa [h2] using (List.range_succ s.next).symm
        · simpa using hlt
        · intro j hj
          rcases Nat.lt_succ_iff_lt_or_eq.mp hj with hj | hj
          · exact h4 j hj
          · subst hj; exact hRnext
        · intro j hj
          dsimp only
          by_cases hji : j = s.next
          · subst hji
            rw [getD_set_self _ _ _ _ (h1 ▸ hlt)]
            simp
          · rw [getD_set_ne _ _ _ (fun he => hji he.symm), h5 j hj]
            constructor
            · rintro ⟨hRj, hle⟩
              exact ⟨hRj, by omega⟩
            · rintro ⟨hRj, hle⟩
              exact ⟨hRj, by omega⟩
    · rw [dif_neg hlt]
      exact ⟨⟨h1, h2, h3, h4, h5⟩, Or.inl (by omega)⟩

theorem step_inv (n : Nat) (R : Nat → Prop) (s : AggState) (i : Nat) (r : CaseResult)
    (hInv : Inv n R s) (hi : i < n) (hR : ¬ R i) :
    Inv n (fun j => j = i ∨ R j) (flush n { s with buf := s.buf.set i (some r) }) := by
  apply flush_preInv
  obtain ⟨⟨h1, h2, h3, h4, h5⟩, _⟩ := hInv
  have hnext_le_i : s.next ≤ i := by
    by_contra hlt
    exact hR (h4 i (by omega))
  refine ⟨by simpa using h1, h2, h3, fun j hj => Or.inr (h4 j hj), fun j hj => ?_⟩
  by_cases hji : j = i
  · subst hji
    rw [getD_set_self _ _ _ _ (h1 ▸ hi)]
    simp [hnext_le_i]
  · rw [getD_set_ne _ _ _ (fun he => hji he.symm), h5 j hj]
    constructor
    · rintro ⟨hRj, hle⟩
      exact ⟨Or.inr hRj, hle⟩
    · rintro ⟨hor, hle⟩
      rcases hor with he | hRj
      · exact absurd he hji
      · exact ⟨hRj, hle⟩

theorem recvLoop_ok_inv (n : Nat) :
    ∀ (msgs : List (Nat × Except String CaseResult)) (s : AggState) (R : Nat → Prop),
      Inv n R s →
      (∀ m ∈ msgs, ∃ r, m.2 = Except.ok r) →
      (msgs.map Prod.fst).Nodup →
      (∀ m ∈ msgs, m.1 < n ∧ ¬ R m.1) →
      ∃ s2, recvLoop n msgs s = (s2, none) ∧
        Inv n (fun j => R j ∨ j ∈ msgs.map Prod.fst) s2 := by
  intro msgs
  induction msgs with
  | nil =>
    intro s R hInv _ _ _
    exact ⟨s, rfl, Inv_congr (fun j => by simp) hInv⟩
  | cons m rest ih =>
    intro s R hInv hok hnodup hbound
    obtain ⟨i, res⟩ := m
    obtain ⟨r, hr⟩ := hok (i, res) (List.mem_cons_self _ _)
    simp only at hr
    subst hr
    rw [recvLoop]
    obtain ⟨hin, hiR⟩ := hbound (i, Except.ok r) (List.mem_cons_self _ _)
    have hstep := step_inv n R s i r hInv hin hiR
    simp only [List.map_cons, List.nodup_cons] at hnodup
    obtain ⟨s2, heq, hInv2⟩ := ih _ _ hstep
      (fun m hm => hok m (List.mem_cons_of_mem _ hm))
      hnodup.2
      (fun m hm => ⟨(hbound m (List.mem_cons_of_mem _ hm)).1, fun hor => by
        rcases hor with he | hRm
        · exact hnodup.1 (he ▸ List.mem_map_of_mem Prod.fst hm)
        · exact (hbound m (List.mem_cons_of_mem _ hm)).2 hRm⟩)
    refine ⟨s2, heq, Inv_congr (fun j => by
      simp only [List.map_cons, List.mem_cons]
      tauto) hInv2⟩

theorem initAggState_inv (n : Nat) : Inv n (fun _ => False) (initAggState n) := by
  constructor
  · refine ⟨by simp [initAggState], rfl, by simp [initAggState], ?_, ?_⟩
    · intro j hj
      simp [initAggState] at hj
    · intro j hj
      simp [initAggState, List.getD_eq_getElem?_getD, List.getElem?_replicate, hj]
  · exact Or.inr not_false

/-- C1: for a batch of `N` resolved cases run in evaluating mode whose workers
all succeed, whatever order their messages arrive in (hence for any worker
count and any completion order), the aggregator finishes cleanly and emits
exactly the buffer positions `0, 1, …, N-1` in strictly ascending order: each
slot is filled once and the next-to-emit cursor only advances past filled
slots, never skipping or rewinding (invariant `Inv`, maintained by
`recvLoop_ok_inv` and `flush_preInv`). -/
theorem C1_ordered_emission (cases : List Nat)
    (run : Nat → Except String CaseResult)
    (msgs : List (Nat × Except String CaseResult))
    (hperm : msgs.Perm (workerMsgs run cases))
    (hok : ∀ m ∈ msgs, ∃ r, m.2 = Except.ok r) :
    (execute_multiprocess_agg cases.length msgs).result = Except.ok () ∧
    (execute_multiprocess_agg cases.length msgs).emitted = List.range cases.length := by
  set n := cases.length with hn
  have hwfst : (workerMsgs run cases).map Prod.fst = List.range n := by
    rw [workerMsgs, List.map_map]
    have hcomp : (Prod.fst ∘ fun p : Nat × Nat => (p.1, run p.2)) = Prod.fst := rfl
    rw [hcomp, List.enum_map_fst]
  have hfst : (msgs.map Prod.fst).Perm (List.range n) := by
    have := hperm.map Prod.fst
    rwa [hwfst] at this
  have hnodup : (msgs.map Prod.fst).Nodup := hfst.nodup_iff.mpr (List.nodup_range n)
  have hbound : ∀ m ∈ msgs, m.1 < n ∧ ¬ False := by
    intro m hm
    refine ⟨?_, not_false⟩
    have : m.1 ∈ msgs.map Prod.fst := List.mem_map_of_mem Prod.fst hm
    have := hfst.mem_iff.mp this
    simpa [List.mem_range] using this
  obtain ⟨s2, heq, hInv⟩ :=
    recvLoop_ok_inv n msgs (initAggState n) _ (initAggState_inv n) hok hnodup hbound
  have hmem : ∀ j, (False ∨ j ∈ msgs.map Prod.fst) ↔ j < n := by
    intro j
    simp [hfst.mem_iff, List.mem_range]
  obtain ⟨⟨h1, h2, h3, h4, h5⟩, h6⟩ := Inv_congr hmem hInv
  have hnn : s2.next = n := by
    rcases h6 with h6 | h6
    · exact h6
    · omega
  rw [execute_multiprocess_agg, heq]
  refine ⟨rfl, ?_⟩
  show s2.emitted = List.range n
  rw [h2, hnn]

/-- Witness for C1: two cases completing in reversed order are still emitted
as positions `[0, 1]`. -/
theorem C1_ordered_emission_witness :
    (execute_multiprocess_agg 2 [(1, sampleRun 20), (0, sampleRun 10)]).emitted =
      List.range 2 := by
  have hperm : [(1, sampleRun 20), (0, sampleRun 10)].Perm
      (workerMsgs sampleRun [10, 20]) := by
    have : workerMsgs sampleRun [10, 20] = [(0, sampleRun 10), (1, sampleRun 20)] := rfl
    rw [this]
    exact List.Perm.swap _ _ _
  have hok : ∀ m ∈ [(1, sampleRun 20), (0, sampleRun 10)], ∃ r, m.2 = Except.ok r := by
    intro m hm
    fin_cases hm <;> exact ⟨_, rfl⟩
  exact (C1_ordered_emission [10, 20] sampleRun _ hperm hok).2

theorem recvLoop_ok_run (n : Nat) :
    ∀ (pre : List (Nat × Except String CaseResult)) (s : AggState),
      (∀ m ∈ pre, ∃ r, m.2 = Except.ok r) →
      ∃ s2, recvLoop n pre s = (s2, none) := by
  intro pre
  induction pre with
  | nil => exact fun s _ => ⟨s, rfl⟩
  | cons m rest ih =>
    intro s hok
    obtain ⟨i, res⟩ := m
    obtain ⟨r, hr⟩ := hok (i, res) (List.mem_cons_self _ _)
    simp only at hr
    subst hr
    rw [recvLoop]
    exact ih _ (fun m hm => hok m (List.mem_cons_of_mem _ hm))

theorem recvLoop_append (n : Nat) :
    ∀ (pre rest : List (Nat × Except String CaseResult)) (s s2 : AggState),
      recvLoop n pre s = (s2, none) →
      recvLoop n (pre ++ rest) s = recvLoop n rest s2 := by
  intro pre
  induction pre with
  | nil =>
    intro rest s s2 h
    rw [recvLoop] at h
    injection h with h1 _
    subst h1
    rfl
  | cons m pre ih =>
    intro rest s s2 h
    obtain ⟨i, res⟩ := m
    cases res with
    | error e =>
      rw [recvLoop] at h
      exact absurd (congrArg Prod.snd h) (by simp)
    | ok r =>
      rw [recvLoop] at h
      rw [List.cons_append, recvLoop]
      exact ih rest _ s2 h

theorem flush_printed (n : Nat) :
    ∀ s : AggState, ∃ ext, (flush n s).printed = s.printed ++ ext ∧
      ∀ ev ∈ ext, ∃ r, ev = OutEvent.caseLine r := by
  suffices H : ∀ m s, n - AggState.next s = m →
      ∃ ext, (flush n s).printed = AggState.printed s ++ ext ∧
        ∀ ev ∈ ext, ∃ r, ev = OutEvent.caseLine r by
    exact fun s => H _ s rfl
  intro m
  induction m using Nat.strong_induction_on with
  | _ m ih =>
    intro s hm
    rw [flush]
    by_cases hlt : s.next < n
    · rw [dif_pos hlt]
      cases hslot : s.buf.getD s.next none with
      | none => exact ⟨[], by simp⟩
      | some r =>
        dsimp only
        obtain ⟨ext, hext, hcase⟩ := ih (n - (s.next + 1)) (by omega)
          { buf := s.buf.set s.next none, next := s.next + 1,
            total := s.total + r.score, last := some r,
            printed := s.printed ++ [OutEvent.caseLine r],
            emitted := s.emitted ++ [s.next] } rfl
        refine ⟨OutEvent.caseLine r :: ext, ?_, ?_⟩
        · rw [hext]
          simp
        · intro ev hev
          rcases List.mem_cons.mp hev with hev | hev
          · exact ⟨r, hev⟩
          · exact hcase ev hev
    · rw [dif_neg hlt]
      exact ⟨[], by simp⟩

theorem recvLoop_printed (n : Nat) :
    ∀ (msgs : List (Nat × Except String CaseResult)) (s : AggState),
      ∃ ext, ((recvLoop n msgs s).1).printed = s.printed ++ ext ∧
        ∀ ev ∈ ext, ∃ r, ev = OutEvent.caseLine r := by
  intro msgs
  induction msgs with
  | nil => exact fun s => ⟨[], by simp [recvLoop]⟩
  | cons m rest ih =>
    intro s
    obtain ⟨i, res⟩ := m
    cases res with
    | error e => exact ⟨[], by simp [recvLoop]⟩
    | ok r =>
      rw [recvLoop]
      obtain ⟨ext1, hext1, hcase1⟩ := flush_printed n { s with buf := s.buf.set i (some r) }
      obtain ⟨ext2, hext2, hcase2⟩ := ih (flush n { s with buf := s.buf.set i (some r) })
      refine ⟨ext1 ++ ext2, ?_, ?_⟩
      · rw [hext2, hext1]
        simp
      · intro ev hev
        rcases List.mem_append.mp hev with hev | hev
        · exact hcase1 ev hev
        · exact hcase2 ev hev

/-- C2: in evaluating mode, the first error arriving at the aggregator (in
channel-arrival order) is the whole batch's result: whatever messages remain
queued behind it (`post`, the uncancelled in-flight workers' sends, which are
still produced but never read), the aggregator stops — it prints exactly the
per-case lines flushed before the error and no `TOTAL` line — performs no
clipboard copy, and `execute_multiprocess` returns that error. -/
theorem C2_first_error (n : Nat) (pre post : List (Nat × Except String CaseResult))
    (i : Nat) (e : String)
    (hok : ∀ m ∈ pre, ∃ r, m.2 = Except.ok r) :
    (execute_multiprocess_agg n (pre ++ (i, Except.error e) :: post)).result =
      Except.error e ∧
    (execute_multiprocess_agg n (pre ++ (i, Except.error e) :: post)).clipped = none ∧
    (execute_multiprocess_agg n (pre ++ (i, Except.error e) :: post)).printed =
      ((recvLoop n pre (initAggState n)).1).printed ∧
    (∀ ev ∈ (execute_multiprocess_agg n (pre ++ (i, Except.error e) :: post)).printed,
      ∃ r, ev = OutEvent.caseLine r) := by
  obtain ⟨s2, h2⟩ := recvLoop_ok_run n pre (initAggState n) hok
  have hfull : recvLoop n (pre ++ (i, Except.error e) :: post) (initAggState n) =
      (s2, some e) := by
    rw [recvLoop_append n pre _ _ _ h2, recvLoop]
  rw [execute_multiprocess_agg, hfull]
  obtain ⟨ext, hext, hcase⟩ := recvLoop_printed n pre (initAggState n)
  rw [h2] at hext
  refine ⟨rfl, rfl, by rw [h2], ?_⟩
  intro ev hev
  have : ev ∈ s2.printed := hev
  rw [hext] at this
  rcases List.mem_append.mp this with hin | hin
  · simp [initAggState] at hin
  · exact hcase ev hin

/-- Witness for C2: a single worker failing with `"boom"` makes the batch
fail with `"boom"`, with nothing printed and no clipboard copy. -/
theorem C2_first_error_witness :
    (execute_multiprocess_agg 1 [(0, Except.error "boom")]).result =
      Except.error "boom" ∧
    (execute_multiprocess_agg 1 [(0, Except.error "boom")]).clipped = none := by
  have h := C2_first_error 1 [] [] 0 "boom" (by intro m hm; exact absurd hm (List.not_mem_nil m))
  exact ⟨h.1, h.2.1⟩

/-- C10: when the resolved case sequence is empty (for example the selector
`"5-3"`, a reversed range), the workers send nothing (no subprocess runs), so
the channel must deliver the empty message list; evaluating mode completes
successfully, prints only `TOTAL=0`, and performs no clipboard copy. -/
theorem C10_empty_batch (args : List String) (run : Nat → Except String CaseResult)
    (msgs : List (Nat × Except String CaseResult))
    (h0 : parse_cases args = [])
    (hperm : msgs.Perm (workerMsgs run (parse_cases args))) :
    workerMsgs run (parse_cases args) = [] ∧ msgs = [] ∧
    execute_multiprocess_agg (parse_cases args).length msgs =
      ⟨[OutEvent.totalLine "0"], none, Except.ok (), []⟩ := by
  have hw : workerMsgs run (parse_cases args) = [] := by rw [h0]; rfl
  have hm : msgs = [] := by
    rw [hw] at hperm
    exact List.perm_nil.mp hperm
  subst hm
  refine ⟨hw, rfl, ?_⟩
  rw [h0]
  rfl

/-- Witness for C10 at the reversed-range selector `"5-3"`. -/
theorem C10_empty_batch_witness :
    execute_multiprocess_agg (parse_cases ["5-3"]).length [] =
      ⟨[OutEvent.totalLine "0"], none, Except.ok (), []⟩ := by
  refine (C10_empty_batch ["5-3"] sampleRun [] ?_ ?_).2.2
  · rfl
  · rw [show parse_cases ["5-3"] = [] from rfl]
    rfl

/-! ## Construction, configuration errors, exit codes -/

/-- C6: both patterns are compiled at harness construction (`Heu::new`):
construction succeeds exactly when both compile; a score-pattern failure
(checked first) or a comment-pattern failure aborts construction immediately
with the corresponding panic, and then the whole run performs no side effect
at all — no subprocess spawns, no case executes — whatever the execute stage
would have done; on success the harness stores exactly the two compiled
patterns (compiled once, here, and reused thereafter). -/
theorem C6_patterns_compiled_at_construction (compile : String → Option RegexCap)
    (config : Config) (execOutcome : Heu → Except String Unit × List Event) :
    ((Heu.new compile config).isOk = true ↔
      (compile config.test.score_regex).isSome = true ∧
      (compile config.test.comment_regex).isSome = true) ∧
    (compile config.test.score_regex = none →
      Heu.new compile config =
        Except.error ("Invalid test.score_regex " ++ config.test.score_regex) ∧
      (mainRun compile config execOutcome).2 = []) ∧
    (∀ sr, compile config.test.score_regex = some sr →
      compile config.test.comment_regex = none →
      Heu.new compile config =
        Except.error ("Invalid test.comment_regex " ++ config.test.comment_regex) ∧
      (mainRun compile config execOutcome).2 = []) ∧
    (∀ h, Heu.new compile config = Except.ok h →
      ∃ sr cr, compile config.test.score_regex = some sr ∧
        compile config.test.comment_regex = some cr ∧
        h.score_regex = sr ∧ h.comment_regex = cr ∧ h.config = config ∧
        h.cases = parse_cases (splitWhitespace config.test.cases)) := by
  cases hs : compile config.test.score_regex with
  | none =>
    refine ⟨by simp [Heu.new, hs, Except.isOk, Except.toBool], ?_, ?_, ?_⟩
    · intro _
      exact ⟨by rw [Heu.new, hs], by rw [mainRun, Heu.new, hs]⟩
    · intro sr hsr
      exact absurd hsr (by simp)
    · intro h hh
      rw [Heu.new, hs] at hh
      exact absurd hh (by simp)
  | some sr =>
    cases hc : compile config.test.comment_regex with
    | none =>
      refine ⟨by simp [Heu.new, hs, hc, Except.isOk, Except.toBool], ?_, ?_, ?_⟩
      · intro hn
        exact absurd hn (by simp)
      · intro sr2 _ _
        exact ⟨by rw [Heu.new, hs, hc], by rw [mainRun, Heu.new, hs, hc]⟩
      · intro h hh
        rw [Heu.new, hs, hc] at hh
        exact absurd hh (by simp)
    | some cr =>
      refine ⟨by simp [Heu.new, hs, hc, Except.isOk, Except.toBool], ?_, ?_, ?_⟩
      · intro hn
        exact absurd hn (by simp)
      · intro sr2 _ hn
        exact absurd hn (by simp)
      · intro h hh
        rw [Heu.new, hs, hc] at hh
        injection hh with hh
        exact ⟨sr, cr, rfl, rfl, by rw [← hh], by rw [← hh], by rw [← hh], by rw [← hh]⟩

/-- Witness for C6: the invalid pattern `"("` aborts construction of
`badConfig` with the score-pattern panic and an empty event trace, while
`sampleConfig` constructs successfully. -/
theorem C6_patterns_compiled_at_construction_witness :
    Heu.new badCompile badConfig =
      Except.error ("Invalid test.score_regex " ++ badConfig.test.score_regex) ∧
    (mainRun badCompile badConfig (fun _ => (Except.ok (), []))).2 = [] ∧
    (Heu.new goodCompile sampleConfig).isOk = true := by
  obtain ⟨h1, h2, -, -⟩ := C6_patterns_compiled_at_construction badCompile badConfig
    (fun _ => (Except.ok (), []))
  obtain ⟨h2a, h2b⟩ := h2 (by rfl)
  refine ⟨h2a, h2b, ?_⟩
  exact (C6_patterns_compiled_at_construction goodCompile sampleConfig
    (fun _ => (Except.ok (), []))).1.mpr ⟨rfl, rfl⟩

/-- C7 counterexample: on a configuration error (invalid score pattern `"("`,
the source's own `test_heu_new_invalid_score_regex_panics` scenario) the
process does *not* exit with code 1 and an `Error: <message>` line — the
`panic!` in `Heu::new` escapes `main` uncaught, so the process panics and
terminates with exit code 101. -/
theorem C7_counterexample :
    (mainRun badCompile badConfig (fun _ => (Except.ok (), []))).1 =
      ProcOutcome.panicked ("Invalid test.score_regex " ++ badConfig.test.score_regex) ∧
    exitCode (mainRun badCompile badConfig (fun _ => (Except.ok (), []))).1 = 101 ∧
    (101 : Nat) ≠ 1 := by
  exact ⟨rfl, rfl, by omega⟩

/-- C7 (amended): when construction succeeds, the run exits with code 0 on
success and with code 1 on any fatal error returned by `execute`, printing
the single line `Error: <message>` to standard error; but a configuration
error (invalid pattern) panics at construction instead, terminating the
process via Rust's panic path (exit code 101, panic message, no `Error:`
line). -/
theorem C7_exit_code (compile : String → Option RegexCap) (config : Config)
    (execOutcome : Heu → Except String Unit × List Event) :
    (∀ h, Heu.new compile config = Except.ok h →
      ((execOutcome h).1 = Except.ok () →
        (mainRun compile config execOutcome).1 = ProcOutcome.exited 0 [] ∧
        exitCode (mainRun compile config execOutcome).1 = 0) ∧
      (∀ e, (execOutcome h).1 = Except.error e →
        (mainRun compile config execOutcome).1 =
          ProcOutcome.exited 1 ["Error: " ++ e] ∧
        exitCode (mainRun compile config execOutcome).1 = 1)) ∧
    (∀ m, Heu.new compile config = Except.error m →
      (mainRun compile config execOutcome).1 = ProcOutcome.panicked m ∧
      exitCode (mainRun compile config execOutcome).1 = 101) := by
  constructor
  · intro h hok
    constructor
    · intro he
      rw [mainRun, hok]
      dsimp only
      rw [he]
      exact ⟨rfl, rfl⟩
    · intro e he
      rw [mainRun, hok]
      dsimp only
      rw [he]
      exact ⟨rfl, rfl⟩
  · intro m herr
    rw [mainRun, herr]
    exact ⟨rfl, rfl⟩

/-- Witness for C7 at the three concrete outcomes: success, fatal run error,
and configuration panic. -/
theorem C7_exit_code_witness :
    exitCode (mainRun goodCompile sampleConfig (fun _ => (Except.ok (), []))).1 = 0 ∧
    (mainRun goodCompile sampleConfig (fun _ => (Except.error "boom", []))).1 =
      ProcOutcome.exited 1 ["Error: " ++ "boom"] ∧
    exitCode (mainRun badCompile badConfig (fun _ => (Except.ok (), []))).1 = 101 := by
  refine ⟨?_, ?_, ?_⟩
  · exact (((C7_exit_code goodCompile sampleConfig (fun _ => (Except.ok (), []))).1
      ⟨sampleConfig, parse_cases (splitWhitespace sampleConfig.test.cases), noCap, noCap⟩
      rfl).1 rfl).2
  · exact (((C7_exit_code goodCompile sampleConfig (fun _ => (Except.error "boom", []))).1
      ⟨sampleConfig, parse_cases (splitWhitespace sampleConfig.test.cases), noCap, noCap⟩
      rfl).2 "boom" rfl).1
  · exact ((C7_exit_code badCompile badConfig (fun _ => (Except.ok (), []))).2
      ("Invalid test.score_regex " ++ badConfig.test.score_regex) rfl).2

/-! ## Evaluating mode ignores the subprocess exit status; run-only checks it -/

/-- C9: in evaluating mode the solution's (or tester's) exit status is never
inspected: `execute_case` is unchanged when every subprocess status is
overridden, and when the environment calls succeed the case succeeds — with
the captured stdout written to the output file and the visualizer invoked to
score it — with the status flag left entirely free (in particular `false`);
only run-only mode checks the status: the first case whose status probe
reports failure aborts with `"case {c} failed"`. -/
theorem C9_status_only_checked_in_run_only (h : Heu) (w : World) (case : Nat)
    (b : Bool) :
    execute_case h (overrideStatus w b) case = execute_case h w case ∧
    (∀ (input_data : String) (out visOut : SubprocOut),
      h.config.test.use_tester = false →
      w.createDirAll (h.output_file case) = Except.ok () →
      w.readFile (h.input_file case) = Except.ok input_data →
      w.runSolution (h.input_file case) input_data = Except.ok out →
      w.writeFile (h.output_file case) out.stdout = Except.ok () →
      w.runVis (h.input_file case) (h.output_file case) = Except.ok visOut →
      execute_case h w case =
        Except.ok (CaseResult.new case (h.input_file case) (h.output_file case)
            (linesOf visOut.stdout) (linesOf out.stderr) h.score_regex h.comment_regex,
          [Event.createdDir (h.output_file case), Event.spawn h.config.test.bin,
           Event.wrote (h.output_file case) out.stdout,
           Event.spawn h.config.test.vis])) ∧
    (∀ (pre : List Nat) (c : Nat) (rest : List Nat) (evs : List Event),
      (∀ c2 ∈ pre, w.runSolutionStatus (h.input_file c2) = Except.ok true) →
      w.runSolutionStatus (h.input_file c) = Except.ok false →
      run_only_loop h w (pre ++ c :: rest) evs =
        Except.error ("case " ++ String.mk (natDecimal c) ++ " failed")) := by
  have hov1 : (overrideStatus w b).createDirAll = w.createDirAll := rfl
  have hov2 : (overrideStatus w b).readFile = w.readFile := rfl
  have hov3 : (overrideStatus w b).writeFile = w.writeFile := rfl
  have hov4 : (overrideStatus w b).runVis = w.runVis := rfl
  have hrc : ∀ inf input_data, run_command h (overrideStatus w b) inf input_data =
      (run_command h w inf input_data).map
        (fun p => ({ p.1 with success := b }, p.2)) := by
    intro inf input_data
    rw [run_command, run_command]
    have hot : (overrideStatus w b).runTester =
        fun inf => (w.runTester inf).map (fun o => { o with success := b }) := rfl
    have hos : (overrideStatus w b).runSolution =
        fun inf i => (w.runSolution inf i).map (fun o => { o with success := b }) := rfl
    by_cases hut : h.config.test.use_tester = true
    · rw [if_pos hut, if_pos hut, hot]
      dsimp only
      cases hrt : w.runTester inf with
      | error e => rfl
      | ok out => rfl
    · rw [if_neg hut, if_neg hut, hos]
      dsimp only
      cases hrs : w.runSolution inf input_data with
      | error e => rfl
      | ok out => rfl
  refine ⟨?_, ?_, ?_⟩
  · rw [execute_case, execute_case, hov1, hov2, hov3, hov4]
    cases hcd : w.createDirAll (h.output_file case) with
    | error e => rfl
    | ok u =>
      dsimp only
      cases hrf : w.readFile (h.input_file case) with
      | error e => rfl
      | ok input_data =>
        dsimp only
        rw [hrc]
        cases hrun : run_command h w (h.input_file case) input_data with
        | error e => rfl
        | ok p => rfl
  · intro input_data out visOut hut hcd hrf hrs hwf hrv
    rw [execute_case, hcd]
    dsimp only
    rw [hrf]
    dsimp only
    rw [run_command, if_neg (by rw [hut]; exact fun hh => nomatch hh), hrs]
    dsimp only
    rw [hwf]
    dsimp only
    rw [hrv]
    rfl
  · intro pre
    induction pre with
    | nil =>
      intro c rest evs _ hc
      rw [List.nil_append, run_only_loop, hc]
    | cons c2 pre ih =>
      intro c rest evs hpre hc
      rw [List.cons_append, run_only_loop, hpre c2 (List.mem_cons_self _ _)]
      exact ih c rest _ (fun c3 hc3 => hpre c3 (List.mem_cons_of_mem _ hc3)) hc

/-- Witness for C9 on the sample world, where the solution reports exit
status `false` (failure) yet the case succeeds in evaluating mode, while the
run-only loop aborts on it. -/
theorem C9_status_only_checked_in_run_only_witness :
    execute_case sampleHeu (overrideStatus sampleWorld true) 0 =
      execute_case sampleHeu sampleWorld 0 ∧
    execute_case sampleHeu sampleWorld 0 =
      Except.ok (CaseResult.new 0 (sampleHeu.input_file 0) (sampleHeu.output_file 0)
          (linesOf "Score = 42") (linesOf "# note") sampleHeu.score_regex
          sampleHeu.comment_regex,
        [Event.createdDir (sampleHeu.output_file 0),
         Event.spawn sampleHeu.config.test.bin,
         Event.wrote (sampleHeu.output_file 0) "answer",
         Event.spawn sampleHeu.config.test.vis]) ∧
    run_only_loop sampleHeu sampleWorld [0] [] =
      Except.error ("case " ++ String.mk (natDecimal 0) ++ " failed") := by
  obtain ⟨h1, h2, h3⟩ := C9_status_only_checked_in_run_only sampleHeu sampleWorld 0 true
  refine ⟨h1, ?_, ?_⟩
  · exact h2 "input" ⟨false, "answer", "# note"⟩ ⟨true, "Score = 42", ""⟩
      rfl rfl rfl rfl rfl rfl
  · exact h3 [] 0 [] [] (fun c2 hc2 => absurd hc2 (List.not_mem_nil _)) rfl

end CargoHeu
